import Mathlib

/-!
Shallow embedding of the boids simulation (`src/boids.js`).

The source is a single JavaScript class `World` holding a list of boid
records and an `update()` method performing a two-phase tick.  We embed
the program over an arbitrary linear ordered field `α` with a floor
structure (instantiated at `ℚ` for concrete evaluation).  The ambient
`Math` library (cos, sin, atan2, PI) and the random source are
parameters of the embedding: a `MathModel α` supplies the trigonometric
functions, and random draws are passed explicitly (one triple of draws
per boid per tick for `update`, one quadruple per `addBoid` call), each
draw standing for one `Math.random()` result in `[0, 1)`.

The JavaScript `%` on numbers is the remainder with the sign of the
dividend: `a % b = a - b * trunc(a / b)`; `jsMod` models it exactly.
-/

/-- One boid record, as pushed by `addBoid`: committed position `x, y`,
heading `angle`, `speed`, and the staging fields `newAngle, newSpeed`. -/
structure Boid (α : Type) where
  x : α
  y : α
  angle : α
  speed : α
  newAngle : α
  newSpeed : α
  deriving Repr, DecidableEq

instance (α : Type) [Zero α] : Inhabited (Boid α) :=
  ⟨⟨0, 0, 0, 0, 0, 0⟩⟩

/-- The world: plane dimensions and the ordered collection of boids. -/
structure World (α : Type) where
  width : α
  height : α
  boids : List (Boid α)
  deriving Repr, DecidableEq

/-- The ambient math library the source calls into: `Math.cos`,
`Math.sin`, `Math.atan2` (first argument `y`, second `x`) and `Math.PI`.
Kept abstract so the embedding stays executable over `ℚ`. -/
structure MathModel (α : Type) where
  cos : α → α
  sin : α → α
  atan2 : α → α → α
  pi : α

variable {α : Type} [LinearOrderedField α] [FloorRing α]

/-- Truncation toward zero, as the JavaScript number-to-integer rounding
used by the `%` operator. -/
def jsTrunc (q : α) : ℤ :=
  if 0 ≤ q then ⌊q⌋ else ⌈q⌉

/-- The JavaScript `%` on numbers: `a % b = a - b * trunc(a / b)`, the
remainder carrying the sign of the dividend. -/
def jsMod (a b : α) : α :=
  a - b * (jsTrunc (a / b) : α)

/-- `averageAngle(boids)` from the source: sum the unit vectors of the
headings and take `atan2` of the resultant. -/
def averageAngle (m : MathModel α) (bs : List (Boid α)) : α :=
  m.atan2 (bs.foldl (fun s b => s + m.sin b.angle) 0)
          (bs.foldl (fun s b => s + m.cos b.angle) 0)

/-- `averagePosition(boids)` from the source: componentwise arithmetic
mean of the positions. -/
def averagePosition (bs : List (Boid α)) : α × α :=
  (bs.foldl (fun s b => s + b.x) 0 / bs.length,
   bs.foldl (fun s b => s + b.y) 0 / bs.length)

/-- `averageSpeed(boids)` from the source. -/
def averageSpeed (bs : List (Boid α)) : α :=
  bs.foldl (fun s b => s + b.speed) 0 / bs.length

/-- The denominator `distanceSquared / 100 + 1` of the separation rule. -/
def sepDenom (b n : Boid α) : α :=
  ((b.x - n.x) * (b.x - n.x) + (b.y - n.y) * (b.y - n.y)) / 100 + 1

/-- The x-contribution `dx / (distanceSquared / 100 + 1) * 0.01` that
neighbor `n` adds to the `xInfluence` of boid `b` in the separation rule. -/
def sepTermX (b n : Boid α) : α :=
  (b.x - n.x) / sepDenom b n * 0.01

/-- The y-contribution of neighbor `n` to the `yInfluence` of boid `b` in
the separation rule. -/
def sepTermY (b n : Boid α) : α :=
  (b.y - n.y) / sepDenom b n * 0.01

/-- The separation loop: fold the per-neighbor contributions into the
accumulated `(xInfluence, yInfluence)` pair. -/
def sepFold (b : Boid α) (ns : List (Boid α)) (acc : α × α) : α × α :=
  ns.foldl (fun p n => (p.1 + sepTermX b n, p.2 + sepTermY b n)) acc

/-- `getNeighbors(target, radius)` from the source, with the target
given by its index `i` in the list: `boid === target` is reference
identity in JavaScript, which for the distinct records pushed by
`addBoid` is exactly index identity.  Every other boid whose squared
Euclidean distance to the target (computed through `Math.abs` as in the
source) is strictly below `radius * radius` is kept, in list order. -/
def getNeighbors (bs : List (Boid α)) (i : ℕ) (radius : α) : List (Boid α) :=
  let t := bs.getD i default
  (bs.enum.filter (fun p =>
    if p.1 = i then false
    else
      let dx := |p.2.x - t.x|
      let dy := |p.2.y - t.y|
      decide (dx * dx + dy * dy < radius * radius))).map Prod.snd

/-- The body of the Phase 1 loop for the boid at index `i` of `bs`:
accumulate alignment, cohesion, separation and speed-matching influence
from the neighbors (when there are any), add the noise terms
(`nz` holds the three `Math.random()` draws), and stage
`newAngle`/`newSpeed` on the boid. -/
def stageBoid (m : MathModel α) (bs : List (Boid α)) (i : ℕ) (nz : α × α × α) :
    Boid α :=
  let b := bs.getD i default
  let neighbors := getNeighbors bs i 100
  let inf :=
    if 0 < neighbors.length then
      let aAngle := averageAngle m neighbors
      let x1 := 0 + m.cos aAngle * 0.01
      let y1 := 0 + m.sin aAngle * 0.01
      let aPos := averagePosition neighbors
      let x2 := x1 + (aPos.1 - b.x) * 0.001
      let y2 := y1 + (aPos.2 - b.y) * 0.001
      let s := sepFold b neighbors (x2, y2)
      (s.1, s.2, (averageSpeed neighbors - b.speed) * 0.1)
    else ((0 : α), (0 : α), (0 : α))
  let xInfluence := inf.1 + (nz.1 * 2 - 1) * 0.01
  let yInfluence := inf.2.1 + (nz.2.1 * 2 - 1) * 0.01
  let speedInfluence := inf.2.2 + (nz.2.2 * 2 - 1) * 0.01
  { b with
      newAngle := m.atan2 (m.sin b.angle + yInfluence) (m.cos b.angle + xInfluence)
      newSpeed := min (max (b.speed + speedInfluence) 0.5) 2 }

/-- Phase 1 of `update()`, exactly as the source executes it: iterate
over the boids in order, and at each step write the staged
`newAngle`/`newSpeed` of the current boid back into the (mutable)
collection before the next boid is processed. -/
def phase1 (m : MathModel α) (noise : ℕ → α × α × α) (bs : List (Boid α)) :
    List (Boid α) :=
  (List.range bs.length).foldl
    (fun acc i => acc.set i (stageBoid m acc i (noise i))) bs

/-- Reference Phase 1 with explicit snapshot semantics: the staged values
of every boid are computed against the single pre-update list `bs`. -/
def phase1Snap (m : MathModel α) (noise : ℕ → α × α × α) (bs : List (Boid α)) :
    List (Boid α) :=
  (List.range bs.length).map (fun i => stageBoid m bs i (noise i))

/-- The x-axis wrap of Phase 2:
`if (x >= width) x = x % width; if (x <= 0) x = x % width + width`. -/
def wrapX (width x : α) : α :=
  let x1 := if x ≥ width then jsMod x width else x
  if x1 ≤ 0 then jsMod x1 width + width else x1

/-- The y-axis wrap of Phase 2:
`if (y >= height) y = y % height; if (y <= 0) y = y % width + height` —
the second branch divides by `width`, as the source does. -/
def wrapY (width height y : α) : α :=
  let y1 := if y ≥ height then jsMod y height else y
  if y1 ≤ 0 then jsMod y1 width + height else y1

/-- The body of the Phase 2 loop: commit the staged heading and speed,
integrate the position, and wrap each axis. -/
def phase2Boid (m : MathModel α) (width height : α) (b : Boid α) : Boid α :=
  let angle := b.newAngle
  let speed := b.newSpeed
  let x := b.x + m.cos angle * speed
  let y := b.y + m.sin angle * speed
  { b with
      angle := angle
      speed := speed
      x := wrapX width x
      y := wrapY width height y }

/-- `update()` from the source: Phase 1 over all boids, then Phase 2
over all boids. -/
def update (m : MathModel α) (noise : ℕ → α × α × α) (w : World α) : World α :=
  { w with
      boids := (phase1 m noise w.boids).map (phase2Boid m w.width w.height) }

/-- `n` consecutive `update()` calls; `noises t` supplies the per-boid
random draws of tick `t`. -/
def updates (m : MathModel α) (noises : ℕ → ℕ → α × α × α) :
    ℕ → World α → World α
  | 0, w => w
  | n + 1, w => updates m (fun t => noises (t + 1)) n (update m (noises 0) w)

/-- The optional named arguments of `addBoid({x, y, angle, speed})`. -/
structure BoidOptions (α : Type) where
  x : Option α := none
  y : Option α := none
  angle : Option α := none
  speed : Option α := none

instance (α : Type) : Inhabited (BoidOptions α) := ⟨{}⟩

/-- `addBoid(options)` from the source: each omitted field defaults from
a fresh `Math.random()` draw (`r` packs the four draws in source order:
x, y, angle, speed), and the new boid is pushed with `newAngle = 0`,
`newSpeed = 0`. -/
def addBoid (m : MathModel α) (r : α × α × α × α) (opts : BoidOptions α)
    (w : World α) : World α :=
  let x := opts.x.getD (r.1 * w.width)
  let y := opts.y.getD (r.2.1 * w.height)
  let angle := opts.angle.getD (r.2.2.1 * 2 * m.pi)
  let speed := opts.speed.getD (r.2.2.2 + 0.5)
  { w with boids := w.boids ++ [⟨x, y, angle, speed, 0, 0⟩] }

/-- The `World` constructor with an empty (or omitted) initial boid
count: dimensions stored, empty collection. -/
def World.new (width height : α) : World α :=
  ⟨width, height, []⟩

/-! ### Arithmetic facts about `jsMod` and the wraps -/

theorem jsTrunc_of_nonneg {q : α} (h : 0 ≤ q) : jsTrunc q = ⌊q⌋ := by
  simp [jsTrunc, h]

theorem jsTrunc_of_neg {q : α} (h : q < 0) : jsTrunc q = ⌈q⌉ := by
  simp [jsTrunc, not_le.mpr h]

theorem jsMod_nonneg_lt {b : α} (hb : 0 < b) {a : α} (ha : 0 ≤ a) :
    0 ≤ jsMod a b ∧ jsMod a b < b := by
  have hq : 0 ≤ a / b := div_nonneg ha hb.le
  have hmod : jsMod a b = b * Int.fract (a / b) := by
    rw [jsMod, jsTrunc_of_nonneg hq, Int.fract]
    field_simp
  constructor
  · rw [hmod]; exact mul_nonneg hb.le (Int.fract_nonneg _)
  · rw [hmod]
    calc b * Int.fract (a / b) < b * 1 :=
          (mul_lt_mul_left hb).mpr (Int.fract_lt_one _)
    _ = b := mul_one b

theorem jsMod_nonpos {b : α} (hb : 0 < b) {a : α} (ha : a ≤ 0) :
    -b < jsMod a b ∧ jsMod a b ≤ 0 := by
  rcases eq_or_lt_of_le ha with h0 | hneg
  · subst h0
    have : jsMod (0 : α) b = 0 := by
      simp [jsMod, jsTrunc_of_nonneg (le_refl (0 : α))]
    rw [this]
    exact ⟨neg_neg_of_pos hb, le_refl 0⟩
  · have hq : a / b < 0 := div_neg_of_neg_of_pos hneg hb
    rw [jsMod, jsTrunc_of_neg hq]
    constructor
    · have h1 : (⌈a / b⌉ : α) < a / b + 1 := Int.ceil_lt_add_one _
      have h2 : b * (⌈a / b⌉ : α) < b * (a / b + 1) :=
        (mul_lt_mul_left hb).mpr h1
      have h3 : b * (a / b + 1) = a + b := by field_simp
      nlinarith
    · have h1 : a / b ≤ (⌈a / b⌉ : α) := Int.le_ceil _
      have h2 : b * (a / b) ≤ b * (⌈a / b⌉ : α) :=
        (mul_le_mul_left hb).mpr h1
      have h3 : b * (a / b) = a := by field_simp
      nlinarith

theorem jsMod_int_mul (k : ℤ) {b : α} (hb : b ≠ 0) :
    jsMod ((k : α) * b) b = 0 := by
  have hdiv : ((k : α) * b) / b = (k : α) := mul_div_cancel_right₀ _ hb
  rw [jsMod, hdiv]
  rcases le_or_lt 0 ((k : α)) with h | h
  · rw [jsTrunc_of_nonneg h, Int.floor_intCast]; ring
  · rw [jsTrunc_of_neg h, Int.ceil_intCast]; ring

/-- For a positive width the x-wrap always lands in `(0, width]`. -/
theorem wrapX_mem {width : α} (hw : 0 < width) (x : α) :
    0 < wrapX width x ∧ wrapX width x ≤ width := by
  rw [wrapX]
  set x1 := if x ≥ width then jsMod x width else x with hx1
  have hx1lt : x1 < width := by
    rw [hx1]
    split
    · exact (jsMod_nonneg_lt hw (le_trans hw.le (by assumption))).2
    · exact lt_of_not_ge (by assumption)
  by_cases hle : x1 ≤ 0
  · rw [if_pos hle]
    obtain ⟨hgt, hle0⟩ := jsMod_nonpos hw hle
    constructor <;> nlinarith
  · rw [if_neg hle]
    exact ⟨not_le.mp hle, hx1lt.le⟩

/-- When `0 < width ≤ height`, the y-wrap lands in `(0, height]` despite
its second branch dividing by `width`. -/
theorem wrapY_mem {width height : α} (hw : 0 < width) (hwh : width ≤ height)
    (y : α) : 0 < wrapY width height y ∧ wrapY width height y ≤ height := by
  have hh : 0 < height := lt_of_lt_of_le hw hwh
  rw [wrapY]
  set y1 := if y ≥ height then jsMod y height else y with hy1
  have hy1lt : y1 < height := by
    rw [hy1]
    split
    · exact (jsMod_nonneg_lt hh (le_trans hh.le (by assumption))).2
    · exact lt_of_not_ge (by assumption)
  by_cases hle : y1 ≤ 0
  · rw [if_pos hle]
    obtain ⟨hgt, hle0⟩ := jsMod_nonpos hw hle
    constructor <;> nlinarith
  · rw [if_neg hle]
    exact ⟨not_le.mp hle, hy1lt.le⟩

/-- At a nonpositive integer multiple of the width (the integrated `x`
being exactly `0` included), the x-wrap returns exactly `width`. -/
theorem wrapX_int_mul {width : α} (hw : 0 < width) {k : ℤ} (hk : k ≤ 0) :
    wrapX width ((k : α) * width) = width := by
  have hx0 : (k : α) * width ≤ 0 :=
    mul_nonpos_iff.mpr (Or.inr ⟨by exact_mod_cast hk, hw.le⟩)
  have hnotge : ¬ ((k : α) * width ≥ width) := not_le.mpr (lt_of_le_of_lt hx0 hw)
  rw [wrapX]
  simp only [hnotge, if_false, if_pos hx0]
  rw [jsMod_int_mul k hw.ne', zero_add]

omit [FloorRing α] in
/-- The speed clamp of Phase 1 always lands in `[0.5, 2]`. -/
theorem clamp_mem (v : α) :
    (0.5 : α) ≤ min (max v 0.5) 2 ∧ min (max v 0.5) 2 ≤ 2 :=
  ⟨le_min (le_max_right _ _) (by norm_num), min_le_right _ _⟩

/-! ### The committed core of a boid, and what Phase 1 reads -/

/-- The committed fields of a boid, with the staging fields cleared.
Phase 1 reads only these fields of the collection and writes only the
staging fields, so `coreOf` is the snapshot Phase 1 works against. -/
def coreOf (b : Boid α) : Boid α :=
  { b with newAngle := 0, newSpeed := 0 }

omit [LinearOrderedField α] [FloorRing α] in
theorem coreOf_stageBoid [LinearOrderedField α] (m : MathModel α)
    (bs : List (Boid α)) (i : ℕ) (nz : α × α × α) :
    coreOf (stageBoid m bs i nz) = coreOf (bs.getD i default) := rfl

omit [FloorRing α] in
theorem getD_map_coreOf (bs : List (Boid α)) (i : ℕ) :
    (bs.map coreOf).getD i default = coreOf (bs.getD i default) := by
  rcases lt_or_le i bs.length with h | h
  · rw [List.getD_eq_getElem _ _ (by simpa using h), List.getD_eq_getElem _ _ h,
      List.getElem_map]
  · rw [List.getD_eq_default _ _ (by simpa using h), List.getD_eq_default _ _ h]
    rfl

omit [FloorRing α] in
theorem getNeighbors_map_coreOf (bs : List (Boid α)) (i : ℕ) (r : α) :
    getNeighbors (bs.map coreOf) i r = (getNeighbors bs i r).map coreOf := by
  simp only [getNeighbors]
  rw [getD_map_coreOf, List.enum_map, List.filter_map, List.map_map, List.map_map]
  congr 1

omit [FloorRing α] in
theorem averageAngle_map_coreOf (m : MathModel α) (ns : List (Boid α)) :
    averageAngle m (ns.map coreOf) = averageAngle m ns := by
  unfold averageAngle
  rw [List.foldl_map, List.foldl_map]
  rfl

omit [FloorRing α] in
theorem averagePosition_map_coreOf (ns : List (Boid α)) :
    averagePosition (ns.map coreOf) = averagePosition ns := by
  unfold averagePosition
  rw [List.foldl_map, List.foldl_map, List.length_map]
  rfl

omit [FloorRing α] in
theorem averageSpeed_map_coreOf (ns : List (Boid α)) :
    averageSpeed (ns.map coreOf) = averageSpeed ns := by
  unfold averageSpeed
  rw [List.foldl_map, List.length_map]
  rfl

omit [FloorRing α] in
theorem sepFold_map_coreOf (b : Boid α) (ns : List (Boid α)) (acc : α × α) :
    sepFold (coreOf b) (ns.map coreOf) acc = sepFold b ns acc := by
  unfold sepFold
  rw [List.foldl_map]
  rfl

omit [FloorRing α] in
/-- The Phase 1 staging computation for index `i` depends on the
collection only through the committed fields of its boids. -/
theorem stageBoid_congr (m : MathModel α) {bs₁ bs₂ : List (Boid α)} (i : ℕ)
    (nz : α × α × α) (h : bs₁.map coreOf = bs₂.map coreOf) :
    stageBoid m bs₁ i nz = stageBoid m bs₂ i nz := by
  have hb : coreOf (bs₁.getD i default) = coreOf (bs₂.getD i default) := by
    rw [← getD_map_coreOf, ← getD_map_coreOf, h]
  have hn : (getNeighbors bs₁ i 100).map coreOf
      = (getNeighbors bs₂ i 100).map coreOf := by
    rw [← getNeighbors_map_coreOf, ← getNeighbors_map_coreOf, h]
  have hfields := hb
  simp only [coreOf, Boid.mk.injEq, and_true] at hfields
  obtain ⟨hx, hy, hangle, hspeed⟩ := hfields
  have hlen : (getNeighbors bs₁ i 100).length = (getNeighbors bs₂ i 100).length := by
    rw [← List.length_map (getNeighbors bs₁ i 100) coreOf, hn, List.length_map]
  have haa : averageAngle m (getNeighbors bs₁ i 100)
      = averageAngle m (getNeighbors bs₂ i 100) := by
    rw [← averageAngle_map_coreOf m, hn, averageAngle_map_coreOf]
  have hap : averagePosition (getNeighbors bs₁ i 100)
      = averagePosition (getNeighbors bs₂ i 100) := by
    rw [← averagePosition_map_coreOf, hn, averagePosition_map_coreOf]
  have has : averageSpeed (getNeighbors bs₁ i 100)
      = averageSpeed (getNeighbors bs₂ i 100) := by
    rw [← averageSpeed_map_coreOf, hn, averageSpeed_map_coreOf]
  have hsf : ∀ acc, sepFold (bs₁.getD i default) (getNeighbors bs₁ i 100) acc
      = sepFold (bs₂.getD i default) (getNeighbors bs₂ i 100) acc := by
    intro acc
    rw [← sepFold_map_coreOf (bs₁.getD i default), hb, hn,
      sepFold_map_coreOf]
  simp only [stageBoid]
  rw [haa, hap, has, hlen, hx, hy, hangle, hspeed]
  rcases lt_or_le 0 (getNeighbors bs₂ i 100).length with hpos | hpos
  · rw [if_pos hpos, if_pos hpos, hsf]
  · rw [if_neg (not_lt.mpr hpos), if_neg (not_lt.mpr hpos)]

/-- The collection after Phase 1 has processed the first `k` boids:
staged records up to index `k`, untouched records beyond. -/
def stagePrefix (m : MathModel α) (noise : ℕ → α × α × α) (bs : List (Boid α))
    (k : ℕ) : List (Boid α) :=
  (List.range bs.length).map
    (fun j => if j < k then stageBoid m bs j (noise j) else bs.getD j default)

omit [FloorRing α] in
theorem stagePrefix_length (m : MathModel α) (noise : ℕ → α × α × α)
    (bs : List (Boid α)) (k : ℕ) :
    (stagePrefix m noise bs k).length = bs.length := by
  simp [stagePrefix]

omit [FloorRing α] in
theorem stagePrefix_zero (m : MathModel α) (noise : ℕ → α × α × α)
    (bs : List (Boid α)) : stagePrefix m noise bs 0 = bs := by
  apply List.ext_getElem (by simp [stagePrefix])
  intro j h1 h2
  simp only [stagePrefix, List.getElem_map, List.getElem_range, Nat.not_lt_zero,
    if_false]
  exact List.getD_eq_getElem _ _ h2

omit [FloorRing α] in
theorem stagePrefix_map_coreOf (m : MathModel α) (noise : ℕ → α × α × α)
    (bs : List (Boid α)) (k : ℕ) :
    (stagePrefix m noise bs k).map coreOf = bs.map coreOf := by
  apply List.ext_getElem (by simp [stagePrefix])
  intro j h1 h2
  have hj : j < bs.length := by simpa using h2
  simp only [stagePrefix, List.getElem_map, List.getElem_range]
  by_cases hk : j < k
  · rw [if_pos hk, coreOf_stageBoid, List.getD_eq_getElem _ _ hj]
  · rw [if_neg hk, List.getD_eq_getElem _ _ hj]

omit [FloorRing α] in
theorem stagePrefix_succ (m : MathModel α) (noise : ℕ → α × α × α)
    (bs : List (Boid α)) (k : ℕ) :
    stagePrefix m noise bs (k + 1)
      = (stagePrefix m noise bs k).set k
          (stageBoid m (stagePrefix m noise bs k) k (noise k)) := by
  have hstage : stageBoid m (stagePrefix m noise bs k) k (noise k)
      = stageBoid m bs k (noise k) :=
    stageBoid_congr m k (noise k) (stagePrefix_map_coreOf m noise bs k)
  rw [hstage]
  apply List.ext_getElem (by simp [stagePrefix])
  intro j h1 h2
  have hj : j < bs.length := by
    simpa [stagePrefix] using h2
  rw [List.getElem_set]
  by_cases hjk : k = j
  · subst hjk
    simp [stagePrefix, Nat.lt_succ_self]
  · have h2' : j < (stagePrefix m noise bs k).length := by
      simpa [stagePrefix_length] using hj
    simp only [stagePrefix, List.getElem_map, List.getElem_range, if_neg hjk]
    by_cases hlt : j < k
    · rw [if_pos hlt, if_pos (Nat.lt_succ_of_lt hlt)]
    · rw [if_neg hlt, if_neg (by omega)]

omit [FloorRing α] in
/-- Phase 1 as executed (in-place, in order) produces exactly the
snapshot-semantics result. -/
theorem phase1_eq_snap (m : MathModel α) (noise : ℕ → α × α × α)
    (bs : List (Boid α)) : phase1 m noise bs = phase1Snap m noise bs := by
  have key : ∀ k, k ≤ bs.length →
      (List.range k).foldl
        (fun acc i => acc.set i (stageBoid m acc i (noise i))) bs
      = stagePrefix m noise bs k := by
    intro k
    induction k with
    | zero => intro _; simpa using (stagePrefix_zero m noise bs).symm
    | succ n ih =>
      intro hn
      rw [List.range_succ, List.foldl_append, ih (Nat.le_of_succ_le hn)]
      simp only [List.foldl_cons, List.foldl_nil]
      exact (stagePrefix_succ m noise bs n).symm
  rw [phase1, key bs.length (le_refl _)]
  apply List.map_congr_left
  intro j hj
  rw [if_pos (List.mem_range.mp hj)]

omit [FloorRing α] in
/-- Phase 1 leaves every committed field of every boid unchanged. -/
theorem phase1_map_coreOf (m : MathModel α) (noise : ℕ → α × α × α)
    (bs : List (Boid α)) : (phase1 m noise bs).map coreOf = bs.map coreOf := by
  rw [phase1_eq_snap]
  have : phase1Snap m noise bs = stagePrefix m noise bs bs.length := by
    apply List.map_congr_left
    intro j hj
    rw [if_pos (List.mem_range.mp hj)]
  rw [this, stagePrefix_map_coreOf]

omit [FloorRing α] in
theorem phase1_length (m : MathModel α) (noise : ℕ → α × α × α)
    (bs : List (Boid α)) : (phase1 m noise bs).length = bs.length := by
  rw [phase1_eq_snap, phase1Snap, List.length_map, List.length_range]

/-! ### What one `update()` guarantees -/

/-- After a single `update()` on a world with `0 < width ≤ height`,
every boid sits in `(0, width] × (0, height]` with speed in `[0.5, 2]`,
whatever the previous state was. -/
theorem update_bounds (m : MathModel α) (noise : ℕ → α × α × α) (w : World α)
    (hw : 0 < w.width) (hwh : w.width ≤ w.height) :
    ∀ b ∈ (update m noise w).boids,
      0 < b.x ∧ b.x ≤ w.width ∧ 0 < b.y ∧ b.y ≤ w.height ∧
      (0.5 : α) ≤ b.speed ∧ b.speed ≤ 2 := by
  intro b hb
  rw [update] at hb
  simp only [List.mem_map] at hb
  obtain ⟨c, hc, rfl⟩ := hb
  rw [phase1_eq_snap] at hc
  simp only [phase1Snap, List.mem_map] at hc
  obtain ⟨j, hj, rfl⟩ := hc
  exact ⟨(wrapX_mem hw _).1, (wrapX_mem hw _).2, (wrapY_mem hw hwh _).1,
    (wrapY_mem hw hwh _).2, (clamp_mem _).1, (clamp_mem _).2⟩

theorem update_width (m : MathModel α) (noise : ℕ → α × α × α) (w : World α) :
    (update m noise w).width = w.width := rfl

theorem update_height (m : MathModel α) (noise : ℕ → α × α × α) (w : World α) :
    (update m noise w).height = w.height := rfl

theorem update_length (m : MathModel α) (noise : ℕ → α × α × α) (w : World α) :
    (update m noise w).boids.length = w.boids.length := by
  rw [update]
  simp only [List.length_map]
  exact phase1_length m noise w.boids

/-- Per-index correspondence of `update()`: the boid at position `i`
of the output collection is exactly the input boid at position `i`
passed through the Phase 1 staging (against the pre-update snapshot)
and the Phase 2 commit/integrate/wrap — both of which only replace
fields of the record of that boid.  Order is preserved. -/
theorem update_getD (m : MathModel α) (noise : ℕ → α × α × α) (w : World α)
    (i : ℕ) (hi : i < w.boids.length) :
    (update m noise w).boids.getD i default
      = phase2Boid m w.width w.height (stageBoid m w.boids i (noise i)) := by
  have h1 : i < (phase1 m noise w.boids).length := by
    rw [phase1_length]; exact hi
  have h2 : i
      < ((phase1 m noise w.boids).map (phase2Boid m w.width w.height)).length := by
    rw [List.length_map]; exact h1
  show ((phase1 m noise w.boids).map (phase2Boid m w.width w.height)).getD i
      default = _
  rw [List.getD_eq_getElem _ _ h2, List.getElem_map]
  congr 1
  rw [List.getElem_of_eq (phase1_eq_snap m noise w.boids) h1]
  simp [phase1Snap]

theorem update_of_empty (m : MathModel α) (noise : ℕ → α × α × α) (w : World α)
    (h : w.boids = []) : update m noise w = w := by
  obtain ⟨W, H, bs⟩ := w
  simp only at h
  subst h
  rfl

theorem updates_width (m : MathModel α) (ns : ℕ → ℕ → α × α × α) (n : ℕ)
    (w : World α) : (updates m ns n w).width = w.width := by
  induction n generalizing ns w with
  | zero => rfl
  | succ k ih => rw [updates, ih]; rfl

theorem updates_height (m : MathModel α) (ns : ℕ → ℕ → α × α × α) (n : ℕ)
    (w : World α) : (updates m ns n w).height = w.height := by
  induction n generalizing ns w with
  | zero => rfl
  | succ k ih => rw [updates, ih]; rfl

theorem updates_bounds_aux (m : MathModel α) (n : ℕ) :
    ∀ (ns : ℕ → ℕ → α × α × α) (w : World α), 0 < w.width → w.width ≤ w.height →
      (∀ b ∈ w.boids, 0 < b.x ∧ b.x ≤ w.width ∧ 0 < b.y ∧ b.y ≤ w.height ∧
        (0.5 : α) ≤ b.speed ∧ b.speed ≤ 2) →
      ∀ b ∈ (updates m ns n w).boids,
        0 < b.x ∧ b.x ≤ w.width ∧ 0 < b.y ∧ b.y ≤ w.height ∧
        (0.5 : α) ≤ b.speed ∧ b.speed ≤ 2 := by
  induction n with
  | zero => intro ns w _ _ h; exact h
  | succ k ih =>
    intro ns w hw hwh _
    rw [updates]
    exact ih (fun t => ns (t + 1)) (update m (ns 0) w) hw hwh
      (update_bounds m (ns 0) w hw hwh)

/-! ### The wrap pseudocode of the spec, written from the spec text -/

/-- Modelled from the spec, §6: `if x >= width: x = x mod width;
if x <= 0: x = (x mod width) + width`, with `mod` the sign-of-dividend
remainder the spec preserves bit-for-bit. -/
def specWrapX (width x : α) : α :=
  let x1 := if x ≥ width then jsMod x width else x
  if x1 ≤ 0 then jsMod x1 width + width else x1

/-- Modelled from the spec, §6: `if y >= height: y = y mod height;
if y <= 0: y = (y mod width) + height` — the last spec line divides by
`width`, not `height`, and says to preserve this exactly. -/
def specWrapY (width height y : α) : α :=
  let y1 := if y ≥ height then jsMod y height else y
  if y1 ≤ 0 then jsMod y1 width + height else y1

/-- Modelled from the spec, §4.3 Phase 2: commit `angle = newAngle`,
`speed = newSpeed`, integrate `x += cos(angle)·speed`,
`y += sin(angle)·speed`, then wrap each axis by the §6 pseudocode. -/
def specPhase2 (m : MathModel α) (width height : α) (b : Boid α) : Boid α :=
  { b with
      angle := b.newAngle
      speed := b.newSpeed
      x := specWrapX width (b.x + m.cos b.newAngle * b.newSpeed)
      y := specWrapY width height (b.y + m.sin b.newAngle * b.newSpeed) }

/-! ### Concrete instances for evaluation

`mockTrigX` fixes `cos = -1`, `sin = 0`, matching the exact values of
the real `cos`/`sin` at `π` (and `atan2 0 (-1) = π` is renamed `0`);
`mockTrigY` fixes `cos = 0`, `sin = -1`, the exact real values at
`3π/2`.  `centerNoise` draws `0.5` from every `Math.random()` call,
making every noise term `(0.5·2 − 1)·0.01 = 0` exactly. -/

def mockTrigX : MathModel ℚ := ⟨fun _ => -1, fun _ => 0, fun _ _ => 0, 3⟩

def mockTrigY : MathModel ℚ := ⟨fun _ => 0, fun _ => -1, fun _ _ => 0, 3⟩

def centerNoise : ℕ → ℚ × ℚ × ℚ := fun _ => (1/2, 1/2, 1/2)

def centerNoises : ℕ → ℕ → ℚ × ℚ × ℚ := fun _ => centerNoise

/-- A 10×10 world holding one boid built by `addBoid` from the draws
`x = 0.1·10 = 1`, `y = 0.5·10 = 5`, `speed = 0.5 + 0.5 = 1`; under
`mockTrigX` its heading points in the `−x` direction, so one tick moves
it from `x = 1` to exactly `x = 0`, which the wrap sends to `width`. -/
def exWorldX : World ℚ :=
  addBoid mockTrigX (1/10, (1/2, (0, 1/2))) default (World.new 10 10)

/-- A 100×1 world holding one boid built by `addBoid` from the draws
`y = 0.25·1`, `speed = 0.9 + 0.5 = 1.4`; under `mockTrigY` one tick
moves it to `y = −1.15`, and the y-wrap (which divides by `width`)
returns `−1.15 + 1 = −0.15`, outside `[0, height)`. -/
def exWorldY : World ℚ :=
  addBoid mockTrigY (1/2, (1/4, (0, 9/10))) default (World.new 100 1)

/-! ### The claims -/

/-- C1, counterexample: the claimed bounds `0 ≤ x < width`,
`0 ≤ y < height` fail.  In `exWorldX` (10×10, one boid built by
`addBoid`) one tick lands the integrated `x` exactly on `0`, which the
wrap sends to `x = width = 10`, violating `x < width`.  In `exWorldY`
(100×1) one tick sends the boid to `y = −0.15 < 0`, because the lower
branch of the y-wrap divides by `width`, not `height`. -/
theorem update_bounds_counterexample :
    ¬ (∀ b ∈ (updates mockTrigX centerNoises 1 exWorldX).boids,
        0 ≤ b.x ∧ b.x < exWorldX.width ∧ 0 ≤ b.y ∧ b.y < exWorldX.height ∧
        (0.5 : ℚ) ≤ b.speed ∧ b.speed ≤ 2) ∧
    ¬ (∀ b ∈ (updates mockTrigY centerNoises 1 exWorldY).boids,
        0 ≤ b.y ∧ b.y < exWorldY.height) := by
  constructor <;> with_unfolding_all decide

/-- C1, amended: after at least one `update()` on a world with
`0 < width ≤ height`, every boid satisfies `0 < x ≤ width`,
`0 < y ≤ height` and `0.5 ≤ speed ≤ 2` (the wrap lands in the
half-open-from-the-right interval, and the y bound additionally needs
`width ≤ height` because the lower branch of the y-wrap divides by
`width`). -/
theorem updates_bounds_corrected (m : MathModel α) (ns : ℕ → ℕ → α × α × α)
    (n : ℕ) (w : World α) (hw : 0 < w.width) (hwh : w.width ≤ w.height)
    (hn : 1 ≤ n) :
    ∀ b ∈ (updates m ns n w).boids,
      0 < b.x ∧ b.x ≤ w.width ∧ 0 < b.y ∧ b.y ≤ w.height ∧
      (0.5 : α) ≤ b.speed ∧ b.speed ≤ 2 := by
  obtain ⟨k, rfl⟩ : ∃ k, n = k + 1 := ⟨n - 1, by omega⟩
  rw [updates]
  exact updates_bounds_aux m k (fun t => ns (t + 1)) (update m (ns 0) w) hw hwh
    (update_bounds m (ns 0) w hw hwh)

/-- C1 witness: the amended bounds at a concrete instance. -/
theorem updates_bounds_corrected_witness :
    0 < exWorldX.width ∧ exWorldX.width ≤ exWorldX.height ∧ 1 ≤ 1 ∧
    (∀ b ∈ (updates mockTrigX centerNoises 1 exWorldX).boids,
      0 < b.x ∧ b.x ≤ exWorldX.width ∧ 0 < b.y ∧ b.y ≤ exWorldX.height ∧
      (0.5 : ℚ) ≤ b.speed ∧ b.speed ≤ 2) :=
  ⟨by decide, by decide, le_refl 1,
    updates_bounds_corrected mockTrigX centerNoises 1 exWorldX
      (by decide) (by decide) (le_refl 1)⟩

/-- C2: Phase 2 commits `angle = newAngle`, `speed = newSpeed`,
integrates `x += cos(angle)·speed`, `y += sin(angle)·speed`, and wraps
each axis exactly by the §6 pseudocode of the spec — including the
division of the last correction by `width` instead of `height`. -/
theorem phase2_matches_spec_pseudocode (m : MathModel α) (width height : α)
    (b : Boid α) : phase2Boid m width height b = specPhase2 m width height b :=
  rfl

/-- C3: `update()` has two-phase snapshot semantics.  The in-place,
in-order Phase 1 loop produces exactly the result of computing every
staged values of every boid against the single pre-update snapshot, and
Phase 1 changes no committed field (`coreOf`) of any boid — positions
change only in Phase 2. -/
theorem phase1_snapshot_semantics (m : MathModel α) (noise : ℕ → α × α × α)
    (bs : List (Boid α)) :
    phase1 m noise bs = phase1Snap m noise bs ∧
    (phase1 m noise bs).map coreOf = bs.map coreOf :=
  ⟨phase1_eq_snap m noise bs, phase1_map_coreOf m noise bs⟩

/-- C4: `getNeighbors` returns exactly the boids at an index other than
that of the target (identity, not value, equality) whose squared Euclidean
distance to the target is strictly less than `radius²`; distance
exactly `radius` is excluded, and no wrapping is applied. -/
theorem getNeighbors_correct (bs : List (Boid α)) (i : ℕ) (r : α) (b : Boid α)
    (hi : i < bs.length) :
    b ∈ getNeighbors bs i r ↔
      ∃ j, ∃ hj : j < bs.length, j ≠ i ∧ bs[j] = b ∧
        (b.x - bs[i].x) ^ 2 + (b.y - bs[i].y) ^ 2 < r ^ 2 := by
  have habs : ∀ u : α, |u| * |u| = u * u := fun u => abs_mul_abs_self u
  simp only [getNeighbors, List.mem_map, List.mem_filter,
    List.getD_eq_getElem _ _ hi]
  constructor
  · rintro ⟨⟨j, c⟩, ⟨hmem, hpred⟩, hsnd⟩
    simp only at hsnd
    subst hsnd
    rw [List.mk_mem_enum_iff_getElem?] at hmem
    obtain ⟨hj, hc⟩ := List.getElem?_eq_some.mp hmem
    by_cases hji : j = i
    · rw [if_pos hji] at hpred; exact absurd hpred (by simp)
    · rw [if_neg hji] at hpred
      simp only [decide_eq_true_eq, habs] at hpred
      refine ⟨j, hj, hji, hc, ?_⟩
      rw [pow_two, pow_two, pow_two]
      exact hpred
  · rintro ⟨j, hj, hji, hc, hdist⟩
    refine ⟨(j, b), ⟨?_, ?_⟩, rfl⟩
    · rw [List.mk_mem_enum_iff_getElem?]
      exact List.getElem?_eq_some.mpr ⟨hj, hc⟩
    · rw [if_neg hji]
      simp only [decide_eq_true_eq, habs]
      rw [pow_two, pow_two, pow_two] at hdist
      exact hdist

/-- C4 witness: the membership characterization at a concrete list — a
second boid at the exact coordinates of the target, which is a neighbor. -/
theorem getNeighbors_correct_witness :
    0 < [(⟨0, 0, 0, 1, 0, 0⟩ : Boid ℚ), ⟨0, 0, 1, 1, 0, 0⟩].length ∧
    ((⟨0, 0, 1, 1, 0, 0⟩ : Boid ℚ)
        ∈ getNeighbors [⟨0, 0, 0, 1, 0, 0⟩, ⟨0, 0, 1, 1, 0, 0⟩] 0 6 ↔
      ∃ j, ∃ hj : j < ([(⟨0, 0, 0, 1, 0, 0⟩ : Boid ℚ), ⟨0, 0, 1, 1, 0, 0⟩]).length,
        j ≠ 0 ∧ [(⟨0, 0, 0, 1, 0, 0⟩ : Boid ℚ), ⟨0, 0, 1, 1, 0, 0⟩][j]
            = ⟨0, 0, 1, 1, 0, 0⟩ ∧
          ((⟨0, 0, 1, 1, 0, 0⟩ : Boid ℚ).x
              - ([(⟨0, 0, 0, 1, 0, 0⟩ : Boid ℚ), ⟨0, 0, 1, 1, 0, 0⟩][0]).x) ^ 2
            + ((⟨0, 0, 1, 1, 0, 0⟩ : Boid ℚ).y
              - ([(⟨0, 0, 0, 1, 0, 0⟩ : Boid ℚ), ⟨0, 0, 1, 1, 0, 0⟩][0]).y) ^ 2
            < (6 : ℚ) ^ 2) :=
  ⟨by decide,
    getNeighbors_correct [⟨0, 0, 0, 1, 0, 0⟩, ⟨0, 0, 1, 1, 0, 0⟩] 0 6
      ⟨0, 0, 1, 1, 0, 0⟩ (by decide)⟩

/-- C5: with no neighbors, Phase 1 stages
`newAngle = atan2(sin(angle) + ey, cos(angle) + ex)` and
`newSpeed = clamp(speed + es, 0.5, 2.0)` where `ex, ey, es` are the
three noise terms, each of magnitude at most `0.01` when the draws lie
in `[0, 1)`; no other influence contributes. -/
theorem stage_no_neighbors (m : MathModel α) (bs : List (Boid α)) (i : ℕ)
    (nz : α × α × α) (hempty : getNeighbors bs i 100 = [])
    (h1 : 0 ≤ nz.1) (h1' : nz.1 < 1) (h2 : 0 ≤ nz.2.1) (h2' : nz.2.1 < 1)
    (h3 : 0 ≤ nz.2.2) (h3' : nz.2.2 < 1) :
    ∃ ex ey es : α, |ex| ≤ 0.01 ∧ |ey| ≤ 0.01 ∧ |es| ≤ 0.01 ∧
      (stageBoid m bs i nz).newAngle
        = m.atan2 (m.sin (bs.getD i default).angle + ey)
            (m.cos (bs.getD i default).angle + ex) ∧
      (stageBoid m bs i nz).newSpeed
        = min (max ((bs.getD i default).speed + es) 0.5) 2 := by
  refine ⟨(nz.1 * 2 - 1) * 0.01, (nz.2.1 * 2 - 1) * 0.01,
    (nz.2.2 * 2 - 1) * 0.01, ?_, ?_, ?_, ?_, ?_⟩
  · rw [abs_le]; constructor <;> nlinarith
  · rw [abs_le]; constructor <;> nlinarith
  · rw [abs_le]; constructor <;> nlinarith
  · simp [stageBoid, hempty]
  · simp [stageBoid, hempty]

/-- C5 witness: the lone boid of `exWorldX` (for which `getNeighbors`
is empty) staged under the centered draws. -/
theorem stage_no_neighbors_witness :
    getNeighbors exWorldX.boids 0 100 = [] ∧
    (∃ ex ey es : ℚ, |ex| ≤ 0.01 ∧ |ey| ≤ 0.01 ∧ |es| ≤ 0.01 ∧
      (stageBoid mockTrigX exWorldX.boids 0 (1/2, 1/2, 1/2)).newAngle
        = mockTrigX.atan2
            (mockTrigX.sin (exWorldX.boids.getD 0 default).angle + ey)
            (mockTrigX.cos (exWorldX.boids.getD 0 default).angle + ex) ∧
      (stageBoid mockTrigX exWorldX.boids 0 (1/2, 1/2, 1/2)).newSpeed
        = min (max ((exWorldX.boids.getD 0 default).speed + es) 0.5) 2) :=
  ⟨by with_unfolding_all decide,
    stage_no_neighbors mockTrigX exWorldX.boids 0 (1/2, 1/2, 1/2)
      (by with_unfolding_all decide) (by norm_num) (by norm_num) (by norm_num)
      (by norm_num) (by norm_num) (by norm_num)⟩

/-- C6: `addBoid` with no overrides appends exactly one boid at the end
with `x = draw·width ∈ [0, width)`, `y = draw·height ∈ [0, height)`,
`angle = draw·2π ∈ [0, 2π)`, `speed = draw + 0.5 ∈ [0.5, 1.5)` and
staged `newAngle = newSpeed = 0`; parameters default independently and
explicitly supplied fields are stored unchanged. -/
theorem addBoid_correct (m : MathModel α) (r : α × α × α × α) (w : World α)
    (hw : 0 < w.width) (hh : 0 < w.height) (hpi : 0 < m.pi)
    (h1 : 0 ≤ r.1) (h1' : r.1 < 1) (h2 : 0 ≤ r.2.1) (h2' : r.2.1 < 1)
    (h3 : 0 ≤ r.2.2.1) (h3' : r.2.2.1 < 1) (h4 : 0 ≤ r.2.2.2)
    (h4' : r.2.2.2 < 1) :
    (addBoid m r default w).boids
      = w.boids ++ [⟨r.1 * w.width, r.2.1 * w.height, r.2.2.1 * 2 * m.pi,
          r.2.2.2 + 0.5, 0, 0⟩] ∧
    (0 ≤ r.1 * w.width ∧ r.1 * w.width < w.width) ∧
    (0 ≤ r.2.1 * w.height ∧ r.2.1 * w.height < w.height) ∧
    (0 ≤ r.2.2.1 * 2 * m.pi ∧ r.2.2.1 * 2 * m.pi < 2 * m.pi) ∧
    ((0.5 : α) ≤ r.2.2.2 + 0.5 ∧ r.2.2.2 + 0.5 < 1.5) ∧
    (∀ xv yv av sv : α,
      (addBoid m r ⟨some xv, some yv, some av, some sv⟩ w).boids
        = w.boids ++ [⟨xv, yv, av, sv, 0, 0⟩]) ∧
    (∀ xv : α, (addBoid m r ⟨some xv, none, none, none⟩ w).boids
        = w.boids ++ [⟨xv, r.2.1 * w.height, r.2.2.1 * 2 * m.pi,
            r.2.2.2 + 0.5, 0, 0⟩]) := by
  refine ⟨rfl, ⟨mul_nonneg h1 hw.le, mul_lt_of_lt_one_left hw h1'⟩,
    ⟨mul_nonneg h2 hh.le, mul_lt_of_lt_one_left hh h2'⟩,
    ⟨?_, ?_⟩, ⟨by linarith, by linarith⟩, fun xv yv av sv => rfl, fun xv => rfl⟩
  · positivity
  · rw [mul_assoc]
    exact mul_lt_of_lt_one_left (by positivity) h3'

/-- C6 witness: `addBoid` with no overrides on an empty 10×10 world. -/
theorem addBoid_correct_witness :
    0 < (World.new (10 : ℚ) 10).width ∧ 0 < (World.new (10 : ℚ) 10).height ∧
    0 < mockTrigX.pi ∧
    (addBoid mockTrigX (1/10, (1/2, (1/4, 9/10))) default
        (World.new (10 : ℚ) 10)).boids
      = (World.new (10 : ℚ) 10).boids
        ++ [⟨(1/10 : ℚ) * (World.new (10 : ℚ) 10).width,
            (1/2 : ℚ) * (World.new (10 : ℚ) 10).height,
            (1/4 : ℚ) * 2 * mockTrigX.pi, (9/10 : ℚ) + 0.5, 0, 0⟩] :=
  ⟨by norm_num [World.new], by norm_num [World.new], by norm_num [mockTrigX],
    (addBoid_correct mockTrigX (1/10, (1/2, (1/4, 9/10))) (World.new 10 10)
      (by norm_num [World.new]) (by norm_num [World.new])
      (by norm_num [mockTrigX]) (by norm_num) (by norm_num) (by norm_num)
      (by norm_num) (by norm_num) (by norm_num) (by norm_num)
      (by norm_num)).1⟩

/-- C7: every separation denominator `distanceSquared/100 + 1` is at
least `1` — for any pair of boids, coincident positions included — so
the separation rule never divides by zero. -/
theorem sepDenom_ge_one (b n : Boid α) :
    1 ≤ sepDenom b n ∧ sepDenom b n ≠ 0 := by
  have hsq : 0 ≤ (b.x - n.x) * (b.x - n.x) + (b.y - n.y) * (b.y - n.y) :=
    add_nonneg (mul_self_nonneg _) (mul_self_nonneg _)
  have h1 : 1 ≤ sepDenom b n := by
    rw [sepDenom]
    have : 0 ≤ ((b.x - n.x) * (b.x - n.x) + (b.y - n.y) * (b.y - n.y)) / 100 :=
      div_nonneg hsq (by norm_num)
    linarith
  exact ⟨h1, by linarith⟩

/-- C8: for two boids each of which is the only neighbor of the other, the x and y
separation contributions computed for each in the same tick are equal
in magnitude and opposite in sign. -/
theorem sep_antisymm (a b : Boid α)
    (h : (b.x - a.x) * (b.x - a.x) + (b.y - a.y) * (b.y - a.y) < 100 * 100) :
    getNeighbors [a, b] 0 100 = [b] ∧ getNeighbors [a, b] 1 100 = [a] ∧
    sepFold a [b] (0, 0) = (sepTermX a b, sepTermY a b) ∧
    sepFold b [a] (0, 0) = (-sepTermX a b, -sepTermY a b) ∧
    sepTermX b a = -sepTermX a b ∧ sepTermY b a = -sepTermY a b := by
  have hdenom : sepDenom b a = sepDenom a b := by
    unfold sepDenom; ring_nf
  have htx : sepTermX b a = -sepTermX a b := by
    unfold sepTermX; rw [hdenom]; ring
  have hty : sepTermY b a = -sepTermY a b := by
    unfold sepTermY; rw [hdenom]; ring
  have h' : (a.x - b.x) * (a.x - b.x) + (a.y - b.y) * (a.y - b.y)
      < 100 * 100 := by nlinarith [h]
  refine ⟨?_, ?_, ?_, ?_, htx, hty⟩
  · simp [getNeighbors, List.enum, List.enumFrom, List.filter, h]
  · simp [getNeighbors, List.enum, List.enumFrom, List.filter, h']
  · simp [sepFold]
  · simp [sepFold, htx, hty]

/-- C8 witness: two boids at distance 5 < 100. -/
theorem sep_antisymm_witness :
    ((⟨3, 4, 0, 1, 0, 0⟩ : Boid ℚ).x - (⟨0, 0, 0, 1, 0, 0⟩ : Boid ℚ).x)
          * ((⟨3, 4, 0, 1, 0, 0⟩ : Boid ℚ).x - (⟨0, 0, 0, 1, 0, 0⟩ : Boid ℚ).x)
        + ((⟨3, 4, 0, 1, 0, 0⟩ : Boid ℚ).y - (⟨0, 0, 0, 1, 0, 0⟩ : Boid ℚ).y)
          * ((⟨3, 4, 0, 1, 0, 0⟩ : Boid ℚ).y - (⟨0, 0, 0, 1, 0, 0⟩ : Boid ℚ).y)
        < 100 * 100 ∧
    sepTermX (⟨3, 4, 0, 1, 0, 0⟩ : Boid ℚ) ⟨0, 0, 0, 1, 0, 0⟩
      = -sepTermX (⟨0, 0, 0, 1, 0, 0⟩ : Boid ℚ) ⟨3, 4, 0, 1, 0, 0⟩ :=
  ⟨by norm_num,
    (sep_antisymm (⟨0, 0, 0, 1, 0, 0⟩ : Boid ℚ) ⟨3, 4, 0, 1, 0, 0⟩
      (by norm_num)).2.2.2.2.1⟩

/-- C9: `update()` never adds, removes or reorders boids and never
touches the dimensions: width, height and the number of boids are
preserved; the boid at each output index `i` is exactly the input boid
at index `i` passed through the Phase 1 staging and the Phase 2
commit/integrate/wrap, which mutate only the six fields of that record;
and on an empty collection `update()` is a no-op. -/
theorem update_frame (m : MathModel α) (noise : ℕ → α × α × α) (w : World α) :
    (update m noise w).width = w.width ∧
    (update m noise w).height = w.height ∧
    (update m noise w).boids.length = w.boids.length ∧
    (∀ i, i < w.boids.length →
      (update m noise w).boids.getD i default
        = phase2Boid m w.width w.height (stageBoid m w.boids i (noise i))) ∧
    (w.boids = [] → update m noise w = w) :=
  ⟨rfl, rfl, update_length m noise w,
    fun i hi => update_getD m noise w i hi, update_of_empty m noise w⟩

/-- C9 witness: the empty 10×10 world is left untouched, and in
`exWorldX` the single boid at index 0 is mapped to itself staged and
integrated. -/
theorem update_frame_witness :
    (World.new (10 : ℚ) 10).boids = [] ∧
    update mockTrigX centerNoise (World.new (10 : ℚ) 10)
      = World.new (10 : ℚ) 10 ∧
    0 < exWorldX.boids.length ∧
    (update mockTrigX centerNoise exWorldX).boids.getD 0 default
      = phase2Boid mockTrigX exWorldX.width exWorldX.height
          (stageBoid mockTrigX exWorldX.boids 0 (centerNoise 0)) :=
  ⟨rfl, (update_frame mockTrigX centerNoise (World.new 10 10)).2.2.2.2 rfl,
    by decide,
    (update_frame mockTrigX centerNoise exWorldX).2.2.2.1 0 (by decide)⟩

/-- C10: for positive width the x-wrap really lands in `(0, width]`,
not `[0, width)`: a wrapped `x` of exactly `0` is never produced, and a
nonpositive exact multiple of `width` (the integrated `x` being exactly
`0` included) wraps to exactly `width`. -/
theorem wrapX_range_actual (width : α) (h : 0 < width) :
    (∀ x : α, 0 < wrapX width x ∧ wrapX width x ≤ width) ∧
    (∀ k : ℤ, k ≤ 0 → wrapX width ((k : α) * width) = width) :=
  ⟨fun x => wrapX_mem h x, fun _ hk => wrapX_int_mul h hk⟩

/-- C10 witness: the actual wrap range at width 10. -/
theorem wrapX_range_actual_witness :
    0 < (10 : ℚ) ∧
    ((∀ x : ℚ, 0 < wrapX 10 x ∧ wrapX 10 x ≤ 10) ∧
      (∀ k : ℤ, k ≤ 0 → wrapX (10 : ℚ) ((k : ℚ) * 10) = 10)) :=
  ⟨by norm_num, wrapX_range_actual 10 (by norm_num)⟩
